import Mathlib

/-!
Verification development for the promptcoder-cli tool-calling orchestration
engine: a shallow embedding of the orchestration loop (`src/app.ts`,
`continueConversation`), the two provider adapters
(`src/llm/openai-client.ts`, `src/llm/anthropic-client.ts`) and the
resilience layer (`retryWithBackoff`, `isRetryableError`), together with
theorems settling the specification claims about them.

Modelling conventions:
* JS strings are Lean `String`s; where the proofs need structural string
  scanning (the Anthropic formatter splits message content on a literal
  marker) the scan is performed on the underlying `List Char`.
* Tool-call `parameters` objects are opaque to the orchestrator; they are
  carried as their canonical JSON serialization (`JSON.stringify`), which is
  exactly the form the orchestrator itself uses (loop signatures, OpenAI
  `arguments`).
* The impure clock (`Date.now()` in the Anthropic formatter's tool-use ids)
  becomes an explicit `now : Nat` parameter, and `Math.random()*1000` in the
  backoff becomes an explicit jitter stream `Nat → ℚ`.
* Bounded `while` loops become fuel-indexed structural recursion, with fuel
  equal to the loop bound, so everything stays kernel-computable.
-/

namespace PromptCoder

/-- Canonical message roles (`Message.role` in `src/llm/types.ts`). -/
inductive Role where
  | user
  | assistant
  | tool
deriving DecidableEq, Repr

/-- A canonical tool call (`ToolCall` in `src/llm/types.ts`); `parameters`
holds the canonical JSON serialization of the parameters object. -/
structure ToolCall where
  name : String
  parameters : String
deriving DecidableEq, Repr

/-- A canonical conversation message (`Message` in `src/llm/types.ts`).
`toolCalls = []` models an absent/empty `toolCalls` field (the adapters
guarantee the orchestrator always sees an array), and `toolCallId = none`
models an absent `toolCallId` (the orchestration loop never sets it). -/
structure Message where
  role : Role
  content : String
  toolCalls : List ToolCall
  toolCallId : Option String
deriving DecidableEq, Repr

/-- An adapter response (`LLMResponse` in `src/llm/types.ts`): both clients
return `content` plus a (possibly empty, never undefined) tool-call list. -/
structure LLMResponse where
  content : String
  toolCalls : List ToolCall
deriving DecidableEq, Repr

/-- The per-call signature used for loop detection
(`app.ts:241`): `name + "(" + JSON.stringify(parameters) + ")"`. -/
def toolCallSig (c : ToolCall) : String :=
  c.name ++ "(" ++ c.parameters ++ ")"

/-- The per-turn `ToolCallSignature` (`app.ts:242`): the per-call signatures
joined with `"|"`. -/
def turnSignature (cs : List ToolCall) : String :=
  String.intercalate "|" (cs.map toolCallSig)

/-- Auxiliary fold for the combined tool-result content (`app.ts:279`):
for each index `i` the loop appends
`(i === 0 ? '' : '\n\nTool ') + (i+1) + " result: " + result`. -/
def combineResultsAux : Nat → List String → String
  | _, [] => ""
  | i, r :: rs =>
      (if i = 0 then "" else "\n\nTool ") ++ Nat.repr (i + 1) ++ " result: " ++ r
        ++ combineResultsAux (i + 1) rs

/-- The combined Tool-message content for one turn (`app.ts:276-280`): a
single result is used verbatim; multiple results go through the indexed
labelling fold. -/
def combinedToolContent (results : List String) : String :=
  match results with
  | [r] => r
  | rs => combineResultsAux 0 rs

/-- A tool-set collaborator as the orchestrator sees it: a tool-name list
(from `getTools()`) plus the raw per-tool implementation, which may throw
(`Except.error` models a thrown JS exception carrying its message). -/
structure ToolSet where
  names : List String
  rawExec : String → String → Except String String

/-- `executeTool` of a tool set (`FileTools.executeTool` in `src/index.ts`,
and identically `AdvancedTools.executeTool` / `SandboxTools.executeTool` in
`src/tools/sandbox-tools.ts`): the switch dispatches on known names, the
default arm throws `Unknown tool: <name>`, and the surrounding try/catch
converts any thrown error into `"Error executing <name>: <message>"`. -/
def ToolSet.executeTool (ts : ToolSet) (name params : String) : String :=
  let attempt : Except String String :=
    if ts.names.contains name then ts.rawExec name params
    else Except.error ("Unknown tool: " ++ name)
  match attempt with
  | Except.ok r => r
  | Except.error e => "Error executing " ++ name ++ ": " ++ e

/-- The per-call dispatch of the orchestration loop (`app.ts:258-272`):
the advanced tool set is consulted first, then the basic (file) set, then
the sandbox set; a name in none of them yields the canonical
`Error: Unknown tool "<name>"` result string. -/
def dispatchToolCall (advanced basic sandbox : ToolSet) (c : ToolCall) : String :=
  if advanced.names.contains c.name then advanced.executeTool c.name c.parameters
  else if basic.names.contains c.name then basic.executeTool c.name c.parameters
  else if sandbox.names.contains c.name then sandbox.executeTool c.name c.parameters
  else "Error: Unknown tool \"" ++ c.name ++ "\""

/-- Terminal states of one orchestration turn (`continueConversation`):
`completed` for the no-tool-calls break, `abortedLoop` for the
repeated-tool-calls break, `abortedMaxIterations` for the `while` condition
running out. -/
inductive Terminal where
  | completed
  | abortedLoop
  | abortedMaxIterations
deriving DecidableEq, Repr

/-- The observable outcome of one turn: the final conversation history, the
terminal state, and the final value of the iteration counter. -/
structure LoopResult where
  history : List Message
  terminal : Terminal
  iterations : Nat
deriving DecidableEq, Repr

/-- The loop-detection test (`app.ts:244`):
`lastToolCalls.length >= 2 && lastToolCalls.slice(-2).every(prev => prev === cur)`.
The buffer is kept most-recent-first here, so `slice(-2)` (the two most
recent entries) is the first two elements. -/
def loopDetect (buf : List String) (sig : String) : Bool :=
  match buf with
  | a :: b :: _ => a = sig && b = sig
  | _ => false

/-- Pushing a signature into the ring buffer (`app.ts:248-249`): append and
drop the oldest beyond three. Most-recent-first orientation: cons then
truncate to three. -/
def pushSignature (buf : List String) (sig : String) : List String :=
  (sig :: buf).take 3

/-- The iteration ceiling of the orchestration loop (`app.ts:209`). -/
def maxIterations : Nat := 25

/-- One turn of the orchestration loop (`continueConversation`,
`app.ts:208-304`), with the adapter modelled as a response script
`resp : Nat → LLMResponse` (the response returned by the `iteration`-th
generation call, zero-indexed) and tool dispatch as `d : ToolCall → String`.
`fuel` is the number of loop entries still allowed (`maxIterations -
iteration`), `iter` the number of iterations performed so far, `buf` the
signature ring buffer, `hist` the conversation history. Each loop entry
appends the assistant message; an empty tool-call list completes the turn;
otherwise loop detection may abort before dispatch; otherwise every call is
dispatched in order and the combined Tool message is appended. -/
def runLoopAux (resp : Nat → LLMResponse) (d : ToolCall → String) :
    Nat → Nat → List String → List Message → LoopResult
  | 0, iter, _, hist => ⟨hist, Terminal.abortedMaxIterations, iter⟩
  | fuel + 1, iter, buf, hist =>
      let r := resp iter
      let hist1 := hist ++ [⟨Role.assistant, r.content, r.toolCalls, none⟩]
      if r.toolCalls.isEmpty then
        ⟨hist1, Terminal.completed, iter + 1⟩
      else
        let sig := turnSignature r.toolCalls
        if loopDetect buf sig then
          ⟨hist1, Terminal.abortedLoop, iter + 1⟩
        else
          let results := r.toolCalls.map d
          let hist2 := hist1 ++ [⟨Role.tool, combinedToolContent results, [], none⟩]
          runLoopAux resp d fuel (iter + 1) (pushSignature buf sig) hist2

/-- A full turn from a fresh `OrchestrationState` (iteration counter 0,
empty signature buffer), starting from history `hist` (which already ends
with the user prompt). -/
def runLoop (resp : Nat → LLMResponse) (d : ToolCall → String)
    (hist : List Message) : LoopResult :=
  runLoopAux resp d maxIterations 0 [] hist

/-- No Tool-role message occurs before the next Assistant-role message (the
scan stops at the first assistant). Used to state the "exactly one Tool
message" part of the history invariant. -/
def noToolBeforeAssistant : List Message → Bool
  | [] => true
  | m :: rest =>
      if m.role = Role.assistant then true
      else !(m.role = Role.tool) && noToolBeforeAssistant rest

/-- The conversation-history invariant of the spec, relative to the tool
dispatch `d`: every Assistant message carrying a non-empty `toolCalls` list
is immediately followed by exactly one Tool message (no further Tool
message before the next Assistant message), whose content is the
concatenation of that turn's tool results. -/
def histOk (d : ToolCall → String) : List Message → Bool
  | [] => true
  | [m] => !(m.role = Role.assistant ∧ m.toolCalls ≠ [] : Bool)
  | m :: t :: rest2 =>
      if m.role = Role.assistant ∧ m.toolCalls ≠ [] then
        t.role = Role.tool
          && t.content = combinedToolContent (m.toolCalls.map d)
          && noToolBeforeAssistant rest2
          && histOk d rest2
      else histOk d (t :: rest2)

/-! ### The block-protocol (Anthropic-style) formatter

`formatMessagesForAnthropic` in `src/llm/anthropic-client.ts`. The string
scanning (JS `String.prototype.split` on the literal marker `"\n\nTool "`,
and the regex replace `^Tool \d+ result: `) is embedded structurally on
`List Char`, with the fuel of the splitter fixed to the input length (which
always suffices, one fuel unit per consumed character). -/

/-- JS `content.split(marker)` on character lists: scan left to right,
cut at each non-overlapping occurrence of `m`. `acc` holds the current
segment reversed; `fuel` bounds the scan (call with `fuel = input length`).
On empty input this yields `[[]]`, like JS `"".split(m) = [""]`. -/
def jsSplitAux (m : List Char) : Nat → List Char → List Char → List (List Char)
  | 0, s, acc => [acc.reverse ++ s]
  | _ + 1, [], acc => [acc.reverse]
  | fuel + 1, c :: rest, acc =>
      if m.isPrefixOf (c :: rest) then
        acc.reverse :: jsSplitAux m fuel (List.drop (m.length - 1) rest) []
      else
        jsSplitAux m fuel rest (c :: acc)

/-- JS `s.split(m)` (for a non-empty marker `m`). -/
def jsSplit (m s : List Char) : List (List Char) :=
  jsSplitAux m s.length s []

/-- `m` occurs as a contiguous subsequence of `s` (decidable occurrence
test used to phrase delimiter-freedom hypotheses about tool outputs). -/
def hasOcc (m : List Char) : List Char → Bool
  | [] => false
  | c :: rest => m.isPrefixOf (c :: rest) || hasOcc m rest

/-- No occurrence of `m` starts at any position of `r` when `r` is followed
by `t`: the left-to-right scan of `r ++ t` meets no match before exhausting
`r`. This is the precise condition under which the splitter cuts exactly at
the boundary after `r`. -/
def cleanBefore (m : List Char) : List Char → List Char → Bool
  | [], _ => true
  | c :: r, t => !(m.isPrefixOf (c :: (r ++ t))) && cleanBefore m r t

/-- The literal split marker of the Anthropic formatter
(`anthropic-client.ts:62`). -/
def toolMarker : List Char := "\n\nTool ".data

/-- `message.content.split('\n\nTool ').filter(Boolean)`
(`anthropic-client.ts:62`): split on the marker and drop empty segments. -/
def splitToolResults (content : String) : List (List Char) :=
  (jsSplit toolMarker content.data).filter (fun seg => seg ≠ [])

/-- The regex replace `result.replace(/^Tool \d+ result: /, '')`
(`anthropic-client.ts:86`): strip a leading `Tool <digits> result: ` label
(at least one digit) if present, otherwise leave the string unchanged. -/
def stripToolLabel (s : List Char) : List Char :=
  if "Tool ".data.isPrefixOf s then
    let rest := s.drop 5
    let ds := rest.takeWhile (fun c => c.isDigit)
    if ds ≠ [] ∧ " result: ".data.isPrefixOf (rest.drop ds.length) then
      (rest.drop ds.length).drop 9
    else s
  else s

/-- A content block of an Anthropic-wire message. -/
inductive ABlock where
  | text (text : String)
  | toolUse (id : String) (name : String) (input : String)
  | toolResult (toolUseId : String) (content : String)
deriving DecidableEq, Repr

/-- The content of an Anthropic-wire message: user messages are pushed with
plain string content, assistant and tool-result messages with block lists. -/
inductive AContent where
  | plain (s : String)
  | blocks (bs : List ABlock)
deriving DecidableEq, Repr

/-- An Anthropic-wire message (`role` is the literal wire role string). -/
structure AMessage where
  role : String
  content : AContent
deriving DecidableEq, Repr

/-- A `tool_use` block id (`anthropic-client.ts:44`):
``call_${Date.now()}_${i}`` with the clock value passed explicitly. -/
def mkToolUseId (now i : Nat) : String :=
  "call_" ++ Nat.repr now ++ "_" ++ Nat.repr i

/-- The tool-message branch of the Anthropic formatter
(`anthropic-client.ts:60-91`): one nonempty segment matched with exactly one
pending id emits a single `tool_result` carrying the whole content;
otherwise one `tool_result` message per position up to the shorter of the
segment and id lists, re-prefixing every segment after the first with
`"Tool "` and stripping the `Tool <i> result: ` label. -/
def formatToolMessage (lastIds : List String) (content : String) : List AMessage :=
  let toolResults := splitToolResults content
  match toolResults, lastIds with
  | [_], [id] => [⟨"user", AContent.blocks [ABlock.toolResult id content]⟩]
  | segs, ids => toolResultMessages 0 segs ids
where
  /-- The `for` loop of the multiple-results branch: position `i` pairs the
  `i`-th segment with the `i`-th pending id (stopping at the shorter list),
  takes the segment verbatim when `i = 0` and `"Tool " ++ segment`
  otherwise, and strips the label. -/
  toolResultMessages : Nat → List (List Char) → List String → List AMessage
    | _, [], _ => []
    | _, _ :: _, [] => []
    | i, seg :: segs, id :: ids =>
        let raw := if i = 0 then seg else "Tool ".data ++ seg
        ⟨"user", AContent.blocks [ABlock.toolResult id (String.mk (stripToolLabel raw))]⟩
          :: toolResultMessages (i + 1) segs ids

/-- `formatMessagesForAnthropic` (`anthropic-client.ts:23-96`), with the
pending tool-use ids (`lastToolCallIds`) threaded as an accumulator and the
clock passed as `now`. User messages pass through with plain content;
assistant messages become a text block (when content is non-empty) followed
by one `tool_use` block per call, refreshing the pending ids; tool messages
are decomposed by `formatToolMessage`. -/
def formatAnthropicAux (now : Nat) : List Message → List String → List AMessage
  | [], _ => []
  | m :: rest, lastIds =>
      match m.role with
      | Role.user => ⟨"user", AContent.plain m.content⟩ :: formatAnthropicAux now rest lastIds
      | Role.assistant =>
          let textBlocks := if m.content ≠ "" then [ABlock.text m.content] else []
          if m.toolCalls.isEmpty then
            ⟨"assistant", AContent.blocks textBlocks⟩ :: formatAnthropicAux now rest lastIds
          else
            let ids := (List.range m.toolCalls.length).map (mkToolUseId now)
            let useBlocks := (m.toolCalls.zip ids).map
              (fun p => ABlock.toolUse p.2 p.1.name p.1.parameters)
            ⟨"assistant", AContent.blocks (textBlocks ++ useBlocks)⟩
              :: formatAnthropicAux now rest ids
      | Role.tool => formatToolMessage lastIds m.content ++ formatAnthropicAux now rest lastIds

/-- Entry point of the Anthropic formatter: `lastToolCallIds` starts empty
(`anthropic-client.ts:25`). -/
def formatMessagesForAnthropic (now : Nat) (messages : List Message) : List AMessage :=
  formatAnthropicAux now messages []

/-! ### The flat-protocol (OpenAI-style) formatter

`formatMessagesForOpenAI` in `src/llm/openai-client.ts` — stateless, one
wire message per canonical message. -/

/-- A serialized tool call on the OpenAI wire
(`openai-client.ts:58-65`): synthetic id, function name, JSON arguments. -/
structure OToolCall where
  id : String
  name : String
  arguments : String
deriving DecidableEq, Repr

/-- An OpenAI-wire message. An assistant message with `toolCalls = []`
models one whose `tool_calls` field is absent. -/
inductive OMessage where
  | user (content : String)
  | assistant (content : String) (toolCalls : List OToolCall)
  | tool (toolCallId : String) (content : String)
deriving DecidableEq, Repr

/-- The synthetic id of the `index`-th assistant tool call
(`openai-client.ts:59`): ``call_${index}``. -/
def synthId (index : Nat) : String :=
  "call_" ++ Nat.repr index

/-- The per-message translation of the OpenAI formatter
(`openai-client.ts:45-76`). Assistant tool calls are serialized in list
order with ids `call_<index>`; a tool message carries
`message.toolCallId || 'call_0'` (JS `||`: an absent or empty id falls back
to `"call_0"`). -/
def formatOpenAIMessage (m : Message) : OMessage :=
  match m.role with
  | Role.user => OMessage.user m.content
  | Role.assistant =>
      OMessage.assistant m.content
        ((List.range m.toolCalls.length).zip m.toolCalls |>.map
          (fun p => ⟨synthId p.1, p.2.name, p.2.parameters⟩))
  | Role.tool =>
      OMessage.tool
        (match m.toolCallId with
          | some s => if s = "" then "call_0" else s
          | none => "call_0")
        m.content

/-- `formatMessagesForOpenAI` (`openai-client.ts:42-79`): the per-message
translation applied to every message in order. -/
def formatMessagesForOpenAI (messages : List Message) : List OMessage :=
  messages.map formatOpenAIMessage

/-- The synthetic tool-call ids of a formatted OpenAI message. -/
def oToolCallIds : OMessage → List String
  | OMessage.assistant _ tcs => tcs.map OToolCall.id
  | _ => []

/-- The `tool_call_id` carried by a formatted OpenAI tool message, if any. -/
def oToolCallIdRef : OMessage → Option String
  | OMessage.tool id _ => some id
  | _ => none

/-! ### The resilience layer

`retryWithBackoff`, `isRetryableError` and `enhanceError`, duplicated
verbatim in both clients (`openai-client.ts:111-179`,
`anthropic-client.ts:140-213`). -/

/-- The fields of a vendor failure object that the classifiers inspect:
`error.status`, `error.response?.status`, `error.error?.type` (Anthropic),
`error.code` (OpenAI). `none` models an absent field. -/
structure APIError where
  status : Option Nat
  responseStatus : Option Nat
  errorType : Option String
  code : Option String
deriving DecidableEq, Repr

/-- `error.status || error.response?.status` with JS falsiness: an absent
or zero `status` falls back to `error.response?.status`. -/
def effStatus (e : APIError) : Option Nat :=
  match e.status with
  | some s => if s = 0 then e.responseStatus else some s
  | none => e.responseStatus

/-- `isRetryableError` of the OpenAI client (`openai-client.ts:142-155`):
statuses 429/502/503/504 and codes `rate_limit_exceeded` / `server_error`. -/
def isRetryableErrorOpenAI (e : APIError) : Bool :=
  effStatus e = some 429 || effStatus e = some 502 || effStatus e = some 503
    || effStatus e = some 504 || e.code = some "rate_limit_exceeded"
    || e.code = some "server_error"

/-- `isRetryableError` of the Anthropic client
(`anthropic-client.ts:171-185`): statuses 429/502/503/504/529 and error
types `overloaded_error` / `rate_limit_error`. -/
def isRetryableErrorAnthropic (e : APIError) : Bool :=
  effStatus e = some 429 || effStatus e = some 502 || effStatus e = some 503
    || effStatus e = some 504 || effStatus e = some 529
    || e.errorType = some "overloaded_error" || e.errorType = some "rate_limit_error"

/-- One attempt's outcome of the wrapped operation: a success value or a
thrown vendor failure. -/
inductive Outcome (T : Type) where
  | success (t : T)
  | failure (e : APIError)

/-- What a `retryWithBackoff` run produces: the returned value or the
enriched error message it throws, the backoff sleeps it performed (in
milliseconds, in order), and how many attempts it made. -/
structure RetryResult (T : Type) where
  result : Except String T
  sleeps : List ℚ
  attemptsMade : Nat

/-- The `for (attempt = 0; attempt <= maxRetries; attempt++)` loop of
`retryWithBackoff` (`openai-client.ts:111-140`, identically
`anthropic-client.ts:140-169`): on success return the value; on a failure
that is retryable with attempts remaining, sleep
`baseDelay * 2^attempt + Math.random()*1000` (jitter stream `jit`) and
retry; otherwise throw the enriched error at once. `fuel` counts the loop
entries still allowed; on loop exit (`fuel = 0`) the code throws the
enriched last error — unreachable when `fuel = maxRetries + 1 - attempt`. -/
def retryAux (T : Type) (isR : APIError → Bool) (enh : APIError → String)
    (op : Nat → Outcome T) (jit : Nat → ℚ) (maxRetries : Nat) (base : ℚ) :
    Nat → Nat → Option APIError → RetryResult T
  | 0, attempt, last =>
      ⟨Except.error (match last with | some e => enh e | none => "no error"), [], attempt⟩
  | fuel + 1, attempt, _ =>
      match op attempt with
      | Outcome.success t => ⟨Except.ok t, [], attempt + 1⟩
      | Outcome.failure e =>
          if isR e ∧ attempt < maxRetries then
            let d := base * 2 ^ attempt + jit attempt
            let r := retryAux T isR enh op jit maxRetries base fuel (attempt + 1) (some e)
            ⟨r.result, d :: r.sleeps, r.attemptsMade⟩
          else ⟨Except.error (enh e), [], attempt + 1⟩

/-- `retryWithBackoff(operation, maxRetries, baseDelay)` with the
classifier and enricher of the enclosing client passed explicitly and the
attempt outcomes scripted by `op`. -/
def retryWithBackoff (T : Type) (isR : APIError → Bool) (enh : APIError → String)
    (op : Nat → Outcome T) (jit : Nat → ℚ) (maxRetries : Nat) (base : ℚ) :
    RetryResult T :=
  retryAux T isR enh op jit maxRetries base (maxRetries + 1) 0 none

/-! ## Claim theorems -/

/-- C2 (code bug): the combining loop labels the FIRST of several results
as `1 result: ` instead of leaving it unlabeled as the spec (and the
Anthropic decomposition, which strips only `Tool <i> result: ` and expects
an unlabeled first segment) requires; a single result is passed verbatim. -/
theorem c2_first_result_labeled :
    combinedToolContent ["A", "B"] = "1 result: A\n\nTool 2 result: B"
      ∧ combinedToolContent ["A"] = "A" := by
  constructor <;> rfl

/-- C6 counterexample: the claim says both adapters classify status 529 as
retryable, but the OpenAI client's `isRetryableError` does not. -/
theorem c6_counterexample :
    isRetryableErrorOpenAI ⟨some 529, none, none, none⟩ = false
      ∧ isRetryableErrorAnthropic ⟨some 529, none, none, none⟩ = true := by
  constructor <;> rfl

/-- C6 (amended): the Anthropic adapter retries 429/502/503/504/529 and the
`overloaded_error` / `rate_limit_error` types; the OpenAI adapter retries
429/502/503/504 and the `rate_limit_exceeded` / `server_error` codes but
NOT status 529; an error carrying status 401 or 403 with no retryable
code/type is never retryable in either adapter. -/
theorem c6_amended :
    (∀ s, s = 429 ∨ s = 502 ∨ s = 503 ∨ s = 504 ∨ s = 529 →
      isRetryableErrorAnthropic ⟨some s, none, none, none⟩ = true)
    ∧ isRetryableErrorAnthropic ⟨none, none, some "overloaded_error", none⟩ = true
    ∧ isRetryableErrorAnthropic ⟨none, none, some "rate_limit_error", none⟩ = true
    ∧ (∀ s, s = 429 ∨ s = 502 ∨ s = 503 ∨ s = 504 →
      isRetryableErrorOpenAI ⟨some s, none, none, none⟩ = true)
    ∧ isRetryableErrorOpenAI ⟨none, none, none, some "rate_limit_exceeded"⟩ = true
    ∧ isRetryableErrorOpenAI ⟨none, none, none, some "server_error"⟩ = true
    ∧ isRetryableErrorOpenAI ⟨some 529, none, none, none⟩ = false
    ∧ (∀ e s, effStatus e = some s → (s = 401 ∨ s = 403) → e.code = none → e.errorType = none →
      isRetryableErrorOpenAI e = false ∧ isRetryableErrorAnthropic e = false) := by
  refine ⟨?_, rfl, rfl, ?_, rfl, rfl, rfl, ?_⟩
  · rintro s (rfl | rfl | rfl | rfl | rfl) <;> rfl
  · rintro s (rfl | rfl | rfl | rfl) <;> rfl
  · rintro e s hs hcases hc ht
    rcases hcases with rfl | rfl <;>
      simp [isRetryableErrorOpenAI, isRetryableErrorAnthropic, hs, hc, ht]

/-- C1 counterexample: a script issuing the same tool-call signature at
iterations 1 and 2 (the second consecutive occurrence) is NOT aborted —
the repeated calls are dispatched and the turn later completes at
iteration 3, refuting abort-on-second-occurrence. -/
theorem c1_counterexample :
    (runLoop (fun n => if n < 2 then ⟨"", [⟨"read_file", "{}"⟩]⟩ else ⟨"done", []⟩)
        (fun _ => "R") [⟨Role.user, "p", [], none⟩]).terminal = Terminal.completed
    ∧ (runLoop (fun n => if n < 2 then ⟨"", [⟨"read_file", "{}"⟩]⟩ else ⟨"done", []⟩)
        (fun _ => "R") [⟨Role.user, "p", [], none⟩]).iterations = 3 := by
  constructor <;> rfl

/-- C9 counterexample: a script whose every response carries a tool call
can stop in the aborted-loop state (here at iteration 3), not in
aborted-max-iterations as claimed. -/
theorem c9_counterexample :
    (runLoop (fun _ => ⟨"", [⟨"a", "{}"⟩]⟩) (fun _ => "R") []).terminal = Terminal.abortedLoop
    ∧ ([⟨"a", "{}"⟩] : List ToolCall) ≠ [] := by
  constructor
  · rfl
  · simp

/-- C3 counterexample: at the aborted-loop terminal state the history ends
with an assistant message carrying tool calls and no following Tool
message, so the claimed invariant fails there. -/
theorem c3_counterexample :
    (runLoop (fun _ => ⟨"", [⟨"a", "{}"⟩]⟩) (fun _ => "R") [⟨Role.user, "p", [], none⟩]).terminal
        = Terminal.abortedLoop
    ∧ histOk (fun _ => "R")
        (runLoop (fun _ => ⟨"", [⟨"a", "{}"⟩]⟩) (fun _ => "R")
          [⟨Role.user, "p", [], none⟩]).history = false := by
  constructor <;> rfl

/-- Length of the per-position tool-result emission: one message per
paired segment/id position. -/
theorem toolResultMessages_length (i : Nat) (segs : List (List Char)) (ids : List String) :
    (formatToolMessage.toolResultMessages i segs ids).length = min segs.length ids.length := by
  induction segs generalizing i ids with
  | nil => simp [formatToolMessage.toolResultMessages]
  | cons s ss ih =>
      cases ids with
      | nil => simp [formatToolMessage.toolResultMessages]
      | cons id' ids' =>
          simp [formatToolMessage.toolResultMessages, ih, Nat.succ_min_succ]

theorem formatToolMessage_length_min (lastIds : List String) (content : String) :
    (formatToolMessage lastIds content).length
      = min (splitToolResults content).length lastIds.length := by
  unfold formatToolMessage
  rcases h : splitToolResults content with _ | ⟨a, _ | ⟨b, rest⟩⟩ <;>
    rcases hi : lastIds with _ | ⟨x, _ | ⟨y, ri⟩⟩ <;>
      simp [toolResultMessages_length]

/-- C10 (amended): the number of `tool_result` messages emitted for a Tool
message equals the minimum of the number of NONEMPTY segments its content
splits into on `"\n\nTool "` and the number of pending `tool_use` ids; in
particular a Tool message with no preceding tool-calling assistant message
(no pending ids) is silently dropped from the formatted request. -/
theorem c10_amended :
    (∀ (lastIds : List String) (content : String),
      (formatToolMessage lastIds content).length
        = min (splitToolResults content).length lastIds.length)
    ∧ (∀ (now : Nat) (u c : String),
        formatMessagesForAnthropic now
          [⟨Role.user, u, [], none⟩, ⟨Role.tool, c, [], none⟩]
        = [⟨"user", AContent.plain u⟩]) := by
  refine ⟨formatToolMessage_length_min, ?_⟩
  intro now u c
  show AMessage.mk "user" (AContent.plain u)
      :: (formatToolMessage [] c ++ formatAnthropicAux now [] []) = _
  have h0 : formatToolMessage [] c = [] := by
    have := formatToolMessage_length_min [] c
    simpa using List.eq_nil_of_length_eq_zero (by simpa using this)
  rw [h0]
  rfl

/-- C10 counterexample: with one pending id and empty content the raw
split yields one segment (so the claimed minimum is 1), yet no
`tool_result` block is emitted — `filter(Boolean)` discards the empty
segment first. -/
theorem c10_counterexample :
    formatToolMessage ["call_7_0"] "" = []
    ∧ (jsSplit toolMarker "".data).length = 1 := by
  constructor <;> rfl

/-- Unfolding lemma: a loop entry whose response has tool calls and does not
trigger loop detection dispatches the calls, appends the assistant and Tool
messages, and continues. -/
theorem runLoopAux_step (resp : Nat → LLMResponse) (d : ToolCall → String)
    (fuel iter : Nat) (buf : List String) (hist : List Message)
    (hne : (resp iter).toolCalls ≠ [])
    (hdet : loopDetect buf (turnSignature (resp iter).toolCalls) = false) :
    runLoopAux resp d (fuel + 1) iter buf hist =
      runLoopAux resp d fuel (iter + 1)
        (pushSignature buf (turnSignature (resp iter).toolCalls))
        (hist ++ [⟨Role.assistant, (resp iter).content, (resp iter).toolCalls, none⟩,
                  ⟨Role.tool, combinedToolContent ((resp iter).toolCalls.map d), [], none⟩]) := by
  have e0 : (resp iter).toolCalls.isEmpty = false := by
    cases h : (resp iter).toolCalls
    · exact absurd h hne
    · rfl
  simp only [runLoopAux, e0, Bool.false_eq_true, if_false, hdet, List.append_assoc,
    List.cons_append, List.nil_append]

/-- Unfolding lemma: a loop entry whose response has tool calls matching the
two most recent buffered signatures aborts before dispatching. -/
theorem runLoopAux_detect (resp : Nat → LLMResponse) (d : ToolCall → String)
    (fuel iter : Nat) (buf : List String) (hist : List Message)
    (hne : (resp iter).toolCalls ≠ [])
    (hdet : loopDetect buf (turnSignature (resp iter).toolCalls) = true) :
    runLoopAux resp d (fuel + 1) iter buf hist =
      ⟨hist ++ [⟨Role.assistant, (resp iter).content, (resp iter).toolCalls, none⟩],
        Terminal.abortedLoop, iter + 1⟩ := by
  have e0 : (resp iter).toolCalls.isEmpty = false := by
    cases h : (resp iter).toolCalls
    · exact absurd h hne
    · rfl
  simp only [runLoopAux, e0, Bool.false_eq_true, if_false, hdet, if_true]

/-- Unfolding lemma: a loop entry whose response has no tool calls appends
the assistant message and completes the turn. -/
theorem runLoopAux_done (resp : Nat → LLMResponse) (d : ToolCall → String)
    (fuel iter : Nat) (buf : List String) (hist : List Message)
    (hemp : (resp iter).toolCalls = []) :
    runLoopAux resp d (fuel + 1) iter buf hist =
      ⟨hist ++ [⟨Role.assistant, (resp iter).content, (resp iter).toolCalls, none⟩],
        Terminal.completed, iter + 1⟩ := by
  have e0 : (resp iter).toolCalls.isEmpty = true := by rw [hemp]; rfl
  simp only [runLoopAux, e0, if_true]

/-- C1 (amended): the loop aborts exactly when the current turn's
signature equals both of the two most recently buffered signatures — i.e.
on the THIRD consecutive identical signature, not the second — and it does
so before dispatching that turn's calls: the final history ends with the
third assistant message and no Tool message after it. -/
theorem c1_amended (resp : Nat → LLMResponse) (d : ToolCall → String) (h0 : List Message)
    (hne0 : (resp 0).toolCalls ≠ []) (hne1 : (resp 1).toolCalls ≠ [])
    (hne2 : (resp 2).toolCalls ≠ [])
    (hs1 : turnSignature (resp 1).toolCalls = turnSignature (resp 0).toolCalls)
    (hs2 : turnSignature (resp 2).toolCalls = turnSignature (resp 0).toolCalls) :
    runLoop resp d h0 =
      ⟨h0 ++ [⟨Role.assistant, (resp 0).content, (resp 0).toolCalls, none⟩,
              ⟨Role.tool, combinedToolContent ((resp 0).toolCalls.map d), [], none⟩,
              ⟨Role.assistant, (resp 1).content, (resp 1).toolCalls, none⟩,
              ⟨Role.tool, combinedToolContent ((resp 1).toolCalls.map d), [], none⟩,
              ⟨Role.assistant, (resp 2).content, (resp 2).toolCalls, none⟩],
        Terminal.abortedLoop, 3⟩ := by
  have h1 : runLoop resp d h0 =
      runLoopAux resp d (24 + 1) 0 [] h0 := rfl
  rw [h1, runLoopAux_step resp d 24 0 [] h0 hne0 rfl]
  have h2 : runLoopAux resp d 24 = runLoopAux resp d (23 + 1) := rfl
  rw [h2, runLoopAux_step resp d 23 (0 + 1) (pushSignature [] (turnSignature (resp 0).toolCalls))
    (h0 ++ [Message.mk Role.assistant (resp 0).content (resp 0).toolCalls none,
            Message.mk Role.tool (combinedToolContent ((resp 0).toolCalls.map d)) [] none])
    hne1 rfl]
  have h3 : runLoopAux resp d 23 = runLoopAux resp d (22 + 1) := rfl
  have hdet : loopDetect
      (pushSignature (pushSignature [] (turnSignature (resp 0).toolCalls))
        (turnSignature (resp 1).toolCalls))
      (turnSignature (resp 2).toolCalls) = true := by
    simp [pushSignature, loopDetect, hs1, hs2]
  rw [h3, runLoopAux_detect resp d 22 (0 + 1 + 1) _ _ hne2 hdet]
  simp [List.append_assoc]

/-- The iteration counter of a loop run never exceeds the starting count
plus the remaining fuel. -/
theorem runLoopAux_iterations_le (resp : Nat → LLMResponse) (d : ToolCall → String) :
    ∀ fuel iter buf hist,
      (runLoopAux resp d fuel iter buf hist).iterations ≤ iter + fuel := by
  intro fuel
  induction fuel with
  | zero => intro iter buf hist; exact Nat.le_refl _
  | succ n ih =>
      intro iter buf hist
      simp only [runLoopAux]
      split
      · show iter + 1 ≤ iter + (n + 1)
        omega
      · split
        · show iter + 1 ≤ iter + (n + 1)
          omega
        · exact Nat.le_trans (ih (iter + 1) _ _) (by omega)

/-- If every scripted response carries at least one tool call, the loop
never reaches the `completed` terminal state. -/
theorem runLoopAux_not_completed (resp : Nat → LLMResponse) (d : ToolCall → String)
    (hne : ∀ i, (resp i).toolCalls ≠ []) :
    ∀ fuel iter buf hist,
      (runLoopAux resp d fuel iter buf hist).terminal ≠ Terminal.completed := by
  intro fuel
  induction fuel with
  | zero => intro iter buf hist; simp [runLoopAux]
  | succ n ih =>
      intro iter buf hist
      have e0 : (resp iter).toolCalls.isEmpty = false := by
        cases h : (resp iter).toolCalls
        · exact absurd h (hne iter)
        · rfl
      simp only [runLoopAux, e0, Bool.false_eq_true, if_false]
      split
      · simp
      · exact ih (iter + 1) _ _

/-- If every scripted response carries tool calls and consecutive
signatures always differ, the loop consumes all its fuel and exits in the
`abortedMaxIterations` state with the counter at its ceiling. -/
theorem runLoopAux_maxiter (resp : Nat → LLMResponse) (d : ToolCall → String)
    (hne : ∀ i, (resp i).toolCalls ≠ [])
    (hdiff : ∀ i, turnSignature (resp (i + 1)).toolCalls ≠ turnSignature (resp i).toolCalls) :
    ∀ fuel iter buf hist,
      (buf = [] ∨ (1 ≤ iter ∧ ∃ t, buf = turnSignature (resp (iter - 1)).toolCalls :: t)) →
      (runLoopAux resp d fuel iter buf hist).terminal = Terminal.abortedMaxIterations
        ∧ (runLoopAux resp d fuel iter buf hist).iterations = iter + fuel := by
  intro fuel
  induction fuel with
  | zero => intro iter buf hist _; exact ⟨rfl, rfl⟩
  | succ n ih =>
      intro iter buf hist hbuf
      have hdet : loopDetect buf (turnSignature (resp iter).toolCalls) = false := by
        rcases hbuf with rfl | ⟨hiter, t, rfl⟩
        · rfl
        · cases t with
          | nil => rfl
          | cons u t' =>
              have hd := hdiff (iter - 1)
              rw [Nat.sub_add_cancel hiter] at hd
              simp only [loopDetect, Bool.and_eq_false_iff, decide_eq_false_iff_not,
                decide_eq_true_eq]
              exact Or.inl (fun h => hd h.symm)
      rw [runLoopAux_step resp d n iter buf hist (hne iter) hdet]
      have := ih (iter + 1) (pushSignature buf (turnSignature (resp iter).toolCalls))
        (hist ++ [Message.mk Role.assistant (resp iter).content (resp iter).toolCalls none,
                  Message.mk Role.tool (combinedToolContent ((resp iter).toolCalls.map d)) [] none])
        (Or.inr ⟨by omega, buf.take 2, by simp [pushSignature]⟩)
      exact ⟨this.1, by omega⟩

/-- C9 (amended): the iteration counter never exceeds the ceiling of 25;
when every response carries tool calls the loop never completes, and it
stops in aborted-max-iterations at exactly iteration 25 provided loop
detection never fires (consecutive signatures differing suffices) —
otherwise it stops earlier in aborted-loop. -/
theorem c9_amended :
    (∀ (resp : Nat → LLMResponse) (d : ToolCall → String) (h0 : List Message),
      (runLoop resp d h0).iterations ≤ 25)
    ∧ (∀ (resp : Nat → LLMResponse) (d : ToolCall → String) (h0 : List Message),
        (∀ i, (resp i).toolCalls ≠ []) →
        (runLoop resp d h0).terminal ≠ Terminal.completed)
    ∧ (∀ (resp : Nat → LLMResponse) (d : ToolCall → String) (h0 : List Message),
        (∀ i, (resp i).toolCalls ≠ []) →
        (∀ i, turnSignature (resp (i + 1)).toolCalls ≠ turnSignature (resp i).toolCalls) →
        (runLoop resp d h0).terminal = Terminal.abortedMaxIterations
          ∧ (runLoop resp d h0).iterations = 25) := by
  refine ⟨fun resp d h0 => ?_, fun resp d h0 hne => ?_, fun resp d h0 hne hdiff => ?_⟩
  · exact runLoopAux_iterations_le resp d maxIterations 0 [] h0
  · exact runLoopAux_not_completed resp d hne maxIterations 0 [] h0
  · exact runLoopAux_maxiter resp d hne hdiff maxIterations 0 [] h0 (Or.inl rfl)

/-- Appending a block that starts with an assistant message (or nothing)
preserves the no-Tool-before-next-Assistant scan. -/
theorem noToolBeforeAssistant_append (r tail : List Message)
    (hr : noToolBeforeAssistant r = true)
    (htail : tail = [] ∨ ∃ m tl, tail = m :: tl ∧ m.role = Role.assistant) :
    noToolBeforeAssistant (r ++ tail) = true := by
  induction r with
  | nil =>
      rcases htail with rfl | ⟨m, tl, rfl, hm⟩
      · rfl
      · simp [noToolBeforeAssistant, hm]
  | cons m rest ih =>
      by_cases hm : m.role = Role.assistant
      · simp [noToolBeforeAssistant, hm]
      · simp only [noToolBeforeAssistant, if_neg hm, Bool.and_eq_true] at hr
        simp only [List.cons_append, noToolBeforeAssistant, if_neg hm, Bool.and_eq_true]
        exact ⟨hr.1, ih hr.2⟩

/-- Appending a well-formed block that starts with an assistant message (or
nothing) preserves the history invariant. -/
theorem histOk_append (d : ToolCall → String) (tail : List Message)
    (ht : histOk d tail = true)
    (hshape : tail = [] ∨ ∃ m tl, tail = m :: tl ∧ m.role = Role.assistant) :
    ∀ (n : Nat) (h : List Message), h.length ≤ n → histOk d h = true →
      histOk d (h ++ tail) = true := by
  intro n
  induction n with
  | zero =>
      intro h hlen hh
      have h0 : h = [] := List.eq_nil_of_length_eq_zero (Nat.le_zero.mp hlen)
      subst h0
      simpa using ht
  | succ n ih =>
      intro h hlen hh
      cases h with
      | nil => simpa using ht
      | cons m rest =>
          cases rest with
          | nil =>
              by_cases hcond : m.role = Role.assistant ∧ m.toolCalls ≠ []
              · rw [show histOk d [m] = false by simp [histOk, hcond]] at hh
                exact absurd hh (by simp)
              · rcases hshape with rfl | ⟨m2, tl, rfl, hm2⟩
                · simpa using hh
                · show histOk d (m :: m2 :: tl) = true
                  simp only [histOk, if_neg hcond]
                  exact ht
          | cons t rest2 =>
              by_cases hcond : m.role = Role.assistant ∧ m.toolCalls ≠ []
              · simp only [histOk, if_pos hcond, Bool.and_eq_true] at hh
                simp only [List.cons_append, histOk, if_pos hcond, Bool.and_eq_true]
                refine ⟨⟨⟨hh.1.1.1, hh.1.1.2⟩, ?_⟩, ?_⟩
                · exact noToolBeforeAssistant_append rest2 tail hh.1.2 hshape
                · refine ih rest2 ?_ hh.2
                  simp only [List.length_cons] at hlen
                  omega
              · simp only [histOk, if_neg hcond] at hh
                simp only [List.cons_append, histOk, if_neg hcond]
                have := ih (t :: rest2) ?_ hh
                · simpa using this
                · simp only [List.length_cons] at hlen ⊢
                  omega

/-- The history invariant through one turn of the loop: preserved in full at
`completed` and `abortedMaxIterations`; at `abortedLoop` the history is a
well-formed prefix followed by one assistant message with undispatched tool
calls. -/
theorem runLoopAux_histOk (resp : Nat → LLMResponse) (d : ToolCall → String) :
    ∀ fuel iter buf hist, histOk d hist = true →
      (((runLoopAux resp d fuel iter buf hist).terminal = Terminal.completed
          ∨ (runLoopAux resp d fuel iter buf hist).terminal = Terminal.abortedMaxIterations) →
        histOk d (runLoopAux resp d fuel iter buf hist).history = true)
      ∧ ((runLoopAux resp d fuel iter buf hist).terminal = Terminal.abortedLoop →
        ∃ pre a, (runLoopAux resp d fuel iter buf hist).history = pre ++ [a]
          ∧ histOk d pre = true ∧ a.role = Role.assistant ∧ a.toolCalls ≠ []) := by
  intro fuel
  induction fuel with
  | zero =>
      intro iter buf hist hh
      exact ⟨fun _ => hh, fun h => by cases h⟩
  | succ n ih =>
      intro iter buf hist hh
      by_cases hemp : (resp iter).toolCalls = []
      · rw [runLoopAux_done resp d n iter buf hist hemp]
        constructor
        · intro _
          refine histOk_append d _ ?_ ?_ hist.length hist (Nat.le_refl _) hh
          · simp [histOk, hemp]
          · exact Or.inr ⟨_, [], rfl, rfl⟩
        · intro h
          cases h
      · by_cases hdet : loopDetect buf (turnSignature (resp iter).toolCalls) = true
        · rw [runLoopAux_detect resp d n iter buf hist hemp hdet]
          constructor
          · intro h
            rcases h with h | h <;> cases h
          · intro _
            exact ⟨hist, _, rfl, hh, rfl, hemp⟩
        · rw [runLoopAux_step resp d n iter buf hist hemp
            (Bool.not_eq_true _ ▸ eq_false_of_ne_true hdet)]
          apply ih
          refine histOk_append d _ ?_ ?_ hist.length hist (Nat.le_refl _) hh
          · simp [histOk, hemp, noToolBeforeAssistant]
          · exact Or.inr ⟨_, _, rfl, rfl⟩

/-- C3 (amended): starting from a history satisfying the invariant, the
invariant holds in full at the completed and aborted-max-iterations
terminal states; at aborted-loop it holds for every assistant message
except the final one, which carries the repeated (undispatched) tool calls
and has no following Tool message. -/
theorem c3_amended (resp : Nat → LLMResponse) (d : ToolCall → String) (h0 : List Message)
    (hh : histOk d h0 = true) :
    (((runLoop resp d h0).terminal = Terminal.completed
        ∨ (runLoop resp d h0).terminal = Terminal.abortedMaxIterations) →
      histOk d (runLoop resp d h0).history = true)
    ∧ ((runLoop resp d h0).terminal = Terminal.abortedLoop →
      ∃ pre a, (runLoop resp d h0).history = pre ++ [a]
        ∧ histOk d pre = true ∧ a.role = Role.assistant ∧ a.toolCalls ≠ []) :=
  runLoopAux_histOk resp d maxIterations 0 [] h0 hh

/-- Unfolding lemma: a successful attempt returns its value at once. -/
theorem retryAux_success (T : Type) (isR : APIError → Bool) (enh : APIError → String)
    (op : Nat → Outcome T) (jit : Nat → ℚ) (maxRetries : Nat) (base : ℚ)
    (fuel a : Nat) (last : Option APIError) (t : T)
    (h : op a = Outcome.success t) :
    retryAux T isR enh op jit maxRetries base (fuel + 1) a last = ⟨Except.ok t, [], a + 1⟩ := by
  simp [retryAux, h]

/-- Unfolding lemma: a failure that is not retryable, or arrives with no
retries left, raises the enriched error at once with no sleep. -/
theorem retryAux_fail_stop (T : Type) (isR : APIError → Bool) (enh : APIError → String)
    (op : Nat → Outcome T) (jit : Nat → ℚ) (maxRetries : Nat) (base : ℚ)
    (fuel a : Nat) (last : Option APIError) (e : APIError)
    (h : op a = Outcome.failure e) (hstop : isR e = false ∨ ¬a < maxRetries) :
    retryAux T isR enh op jit maxRetries base (fuel + 1) a last
      = ⟨Except.error (enh e), [], a + 1⟩ := by
  have hcond : ¬(isR e = true ∧ a < maxRetries) := by
    rcases hstop with h1 | h1
    · simp [h1]
    · simp [h1]
  simp [retryAux, h, hcond]

/-- Unfolding lemma: a retryable failure with retries left sleeps the
backoff delay and retries at the next attempt index. -/
theorem retryAux_fail_retry (T : Type) (isR : APIError → Bool) (enh : APIError → String)
    (op : Nat → Outcome T) (jit : Nat → ℚ) (maxRetries : Nat) (base : ℚ)
    (fuel a : Nat) (last : Option APIError) (e : APIError)
    (h : op a = Outcome.failure e) (hr : isR e = true) (ha : a < maxRetries) :
    retryAux T isR enh op jit maxRetries base (fuel + 1) a last
      = ⟨(retryAux T isR enh op jit maxRetries base fuel (a + 1) (some e)).result,
          (base * 2 ^ a + jit a)
            :: (retryAux T isR enh op jit maxRetries base fuel (a + 1) (some e)).sleeps,
          (retryAux T isR enh op jit maxRetries base fuel (a + 1) (some e)).attemptsMade⟩ := by
  simp [retryAux, h, hr, ha]

/-- The attempt counter of a retry run never exceeds the starting attempt
plus the remaining fuel. -/
theorem retryAux_attempts_le (T : Type) (isR : APIError → Bool) (enh : APIError → String)
    (op : Nat → Outcome T) (jit : Nat → ℚ) (maxRetries : Nat) (base : ℚ) :
    ∀ fuel a last,
      (retryAux T isR enh op jit maxRetries base fuel a last).attemptsMade ≤ a + fuel := by
  intro fuel
  induction fuel with
  | zero => intro a last; exact Nat.le_refl _
  | succ n ih =>
      intro a last
      rcases hop : op a with t | e
      · rw [retryAux_success T isR enh op jit maxRetries base n a last t hop]
        show a + 1 ≤ a + (n + 1)
        omega
      · by_cases hc : isR e = true ∧ a < maxRetries
        · rw [retryAux_fail_retry T isR enh op jit maxRetries base n a last e hop hc.1 hc.2]
          exact Nat.le_trans (ih (a + 1) (some e)) (by omega)
        · rw [retryAux_fail_stop T isR enh op jit maxRetries base n a last e hop ?_]
          · show a + 1 ≤ a + (n + 1)
            omega
          · rcases Bool.eq_false_or_eq_true (isR e) with h1 | h1
            · exact Or.inr (fun h2 => hc ⟨h1, h2⟩)
            · exact Or.inl h1

/-- Every sleep a retry run performs is the exponential backoff delay of
its attempt index: the `i`-th sleep of a run starting at attempt `a` is
`base * 2 ^ (a + i) + jit (a + i)`. -/
theorem retryAux_sleeps_spec (T : Type) (isR : APIError → Bool) (enh : APIError → String)
    (op : Nat → Outcome T) (jit : Nat → ℚ) (maxRetries : Nat) (base : ℚ) :
    ∀ fuel a last i,
      i < (retryAux T isR enh op jit maxRetries base fuel a last).sleeps.length →
      (retryAux T isR enh op jit maxRetries base fuel a last).sleeps.getD i 0
        = base * 2 ^ (a + i) + jit (a + i) := by
  intro fuel
  induction fuel with
  | zero => intro a last i h; simp [retryAux] at h
  | succ n ih =>
      intro a last i h
      rcases hop : op a with t | e
      · rw [retryAux_success T isR enh op jit maxRetries base n a last t hop] at h
        simp at h
      · by_cases hc : isR e = true ∧ a < maxRetries
        · rw [retryAux_fail_retry T isR enh op jit maxRetries base n a last e hop hc.1 hc.2] at h ⊢
          cases i with
          | zero => simp
          | succ j =>
              simp only [List.length_cons, Nat.succ_lt_succ_iff] at h
              have := ih (a + 1) (some e) j h
              simp only [List.getD_cons_succ]
              rw [this]
              ring_nf
        · have hstop : isR e = false ∨ ¬a < maxRetries := by
            rcases Bool.eq_false_or_eq_true (isR e) with h1 | h1
            · exact Or.inr (fun h2 => hc ⟨h1, h2⟩)
            · exact Or.inl h1
          rw [retryAux_fail_stop T isR enh op jit maxRetries base n a last e hop hstop] at h
          simp at h

/-- A retry run only ever returns a value that some attempt actually
produced: success is the last attempt's success, never invented. -/
theorem retryAux_ok_spec (T : Type) (isR : APIError → Bool) (enh : APIError → String)
    (op : Nat → Outcome T) (jit : Nat → ℚ) (maxRetries : Nat) (base : ℚ) :
    ∀ fuel a last t,
      (retryAux T isR enh op jit maxRetries base fuel a last).result = Except.ok t →
      op ((retryAux T isR enh op jit maxRetries base fuel a last).attemptsMade - 1)
        = Outcome.success t := by
  intro fuel
  induction fuel with
  | zero =>
      intro a last t h
      simp [retryAux] at h
  | succ n ih =>
      intro a last t h
      rcases hop : op a with t' | e
      · rw [retryAux_success T isR enh op jit maxRetries base n a last t' hop] at h ⊢
        simp only [Except.ok.injEq] at h
        simpa [h] using hop
      · by_cases hc : isR e = true ∧ a < maxRetries
        · rw [retryAux_fail_retry T isR enh op jit maxRetries base n a last e hop hc.1 hc.2] at h ⊢
          exact ih (a + 1) (some e) t h
        · have hstop : isR e = false ∨ ¬a < maxRetries := by
            rcases Bool.eq_false_or_eq_true (isR e) with h1 | h1
            · exact Or.inr (fun h2 => hc ⟨h1, h2⟩)
            · exact Or.inl h1
          rw [retryAux_fail_stop T isR enh op jit maxRetries base n a last e hop hstop] at h
          simp at h

/-- C7: with `maxRetries = 3`, `baseDelay = 1000`: the operation runs at
most 4 times; every sleep is `1000 * 2 ^ attempt` plus a jitter in
[0, 1000); an immediate success is returned unchanged with no sleep; a
non-retryable first failure raises the enriched error at once with no
sleep after exactly one attempt; four retryable failures exhaust the
retries, raise the enriched last error, and sleep exactly three times; and
a returned success value is always the value some attempt produced. -/
theorem c7_retry (T : Type) (isR : APIError → Bool) (enh : APIError → String)
    (op : Nat → Outcome T) (jit : Nat → ℚ)
    (hj : ∀ n, 0 ≤ jit n ∧ jit n < 1000) :
    (retryWithBackoff T isR enh op jit 3 1000).attemptsMade ≤ 4
    ∧ (∀ i, i < (retryWithBackoff T isR enh op jit 3 1000).sleeps.length →
        ∃ j, 0 ≤ j ∧ j < 1000
          ∧ (retryWithBackoff T isR enh op jit 3 1000).sleeps.getD i 0
              = 1000 * 2 ^ i + j)
    ∧ (∀ t, op 0 = Outcome.success t →
        (retryWithBackoff T isR enh op jit 3 1000).result = Except.ok t
          ∧ (retryWithBackoff T isR enh op jit 3 1000).sleeps = [])
    ∧ (∀ e, op 0 = Outcome.failure e → isR e = false →
        (retryWithBackoff T isR enh op jit 3 1000).result = Except.error (enh e)
          ∧ (retryWithBackoff T isR enh op jit 3 1000).sleeps = []
          ∧ (retryWithBackoff T isR enh op jit 3 1000).attemptsMade = 1)
    ∧ ((∀ k, k ≤ 3 → ∃ e, op k = Outcome.failure e ∧ isR e = true) →
        ∃ e, op 3 = Outcome.failure e
          ∧ (retryWithBackoff T isR enh op jit 3 1000).result = Except.error (enh e)
          ∧ (retryWithBackoff T isR enh op jit 3 1000).sleeps.length = 3)
    ∧ (∀ t, (retryWithBackoff T isR enh op jit 3 1000).result = Except.ok t →
        op ((retryWithBackoff T isR enh op jit 3 1000).attemptsMade - 1)
          = Outcome.success t) := by
  refine ⟨?_, ?_, ?_, ?_, ?_, ?_⟩
  · exact retryAux_attempts_le T isR enh op jit 3 1000 4 0 none
  · intro i h
    refine ⟨jit i, (hj i).1, (hj i).2, ?_⟩
    have := retryAux_sleeps_spec T isR enh op jit 3 1000 4 0 none i h
    simpa using this
  · intro t h
    rw [show retryWithBackoff T isR enh op jit 3 1000
        = retryAux T isR enh op jit 3 1000 (3 + 1) 0 none from rfl,
      retryAux_success T isR enh op jit 3 1000 3 0 none t h]
    exact ⟨rfl, rfl⟩
  · intro e h hr
    rw [show retryWithBackoff T isR enh op jit 3 1000
        = retryAux T isR enh op jit 3 1000 (3 + 1) 0 none from rfl,
      retryAux_fail_stop T isR enh op jit 3 1000 3 0 none e h (Or.inl hr)]
    exact ⟨rfl, rfl, rfl⟩
  · intro hall
    obtain ⟨e0, h0, r0⟩ := hall 0 (by omega)
    obtain ⟨e1, h1, r1⟩ := hall 1 (by omega)
    obtain ⟨e2, h2, r2⟩ := hall 2 (by omega)
    obtain ⟨e3, h3, r3⟩ := hall 3 (by omega)
    refine ⟨e3, h3, ?_⟩
    rw [show retryWithBackoff T isR enh op jit 3 1000
        = retryAux T isR enh op jit 3 1000 (3 + 1) 0 none from rfl,
      retryAux_fail_retry T isR enh op jit 3 1000 3 0 none e0 h0 r0 (by omega),
      show retryAux T isR enh op jit 3 1000 3 = retryAux T isR enh op jit 3 1000 (2 + 1) from rfl,
      retryAux_fail_retry T isR enh op jit 3 1000 2 1 (some e0) e1 h1 r1 (by omega),
      show retryAux T isR enh op jit 3 1000 2 = retryAux T isR enh op jit 3 1000 (1 + 1) from rfl,
      retryAux_fail_retry T isR enh op jit 3 1000 1 2 (some e1) e2 h2 r2 (by omega),
      show retryAux T isR enh op jit 3 1000 1 = retryAux T isR enh op jit 3 1000 (0 + 1) from rfl,
      retryAux_fail_stop T isR enh op jit 3 1000 0 3 (some e2) e3 h3 (Or.inr (by omega))]
    exact ⟨rfl, rfl⟩
  · exact fun t h => retryAux_ok_spec T isR enh op jit 3 1000 4 0 none t h

/-- `Nat.toDigitsCore` always emits at least one digit beyond its
accumulator. -/
theorem toDigitsCore_length_lt (fuel : Nat) :
    ∀ (n : Nat) (ds : List Char), ds.length < (Nat.toDigitsCore 10 (fuel + 1) n ds).length := by
  induction fuel with
  | zero =>
      intro n ds
      simp only [Nat.toDigitsCore]
      split
      · simp
      · simp [Nat.toDigitsCore]
  | succ f ih =>
      intro n ds
      simp only [Nat.toDigitsCore]
      split
      · simp
      · exact Nat.lt_trans (by simp) (ih (n / 10) _)

/-- The decimal representation of a positive natural number is never the
string `"0"`. -/
theorem nat_repr_succ_ne_zero (n : Nat) : Nat.repr (n + 1) ≠ "0" := by
  intro h
  have hdata : Nat.toDigits 10 (n + 1) = ['0'] := by
    have := congrArg String.data h
    simpa [Nat.repr, List.asString] using this
  rw [Nat.toDigits] at hdata
  by_cases hdiv : (n + 1) / 10 = 0
  · rw [show Nat.toDigitsCore 10 (n + 1 + 1) (n + 1) []
        = [Nat.digitChar ((n + 1) % 10)] by simp [Nat.toDigitsCore, hdiv]] at hdata
    have hd : Nat.digitChar ((n + 1) % 10) = '0' := by
      simpa using hdata
    have hmod : (n + 1) % 10 = 0 := by
      have hlt : (n + 1) % 10 < 10 := Nat.mod_lt _ (by norm_num)
      interval_cases h : (n + 1) % 10 <;> simp_all [Nat.digitChar]
    have := Nat.div_add_mod (n + 1) 10
    omega
  · rw [show Nat.toDigitsCore 10 (n + 1 + 1) (n + 1) []
        = Nat.toDigitsCore 10 (n + 1) ((n + 1) / 10) [Nat.digitChar ((n + 1) % 10)] by
          simp [Nat.toDigitsCore, hdiv]] at hdata
    have hlen := toDigitsCore_length_lt n ((n + 1) / 10) [Nat.digitChar ((n + 1) % 10)]
    rw [hdata] at hlen
    simp at hlen

/-- Distinct indices give distinct synthetic ids: no positive index shares
`call_0` with index 0. -/
theorem synthId_succ_ne_zero (n : Nat) : synthId (n + 1) ≠ synthId 0 := by
  intro h
  have hdata := congrArg String.data h
  simp only [synthId, String.data_append] at hdata
  have hrepr : (Nat.repr (n + 1)).data = (Nat.repr 0).data :=
    List.append_cancel_left hdata
  exact nat_repr_succ_ne_zero n ((String.ext hrepr).trans rfl)

/-- Among the synthetic ids `call_0 … call_(n-1)` of a non-empty tool-call
list, `call_0` occurs exactly once. -/
theorem synthIds_count_zero (n : Nat) (h : 1 ≤ n) :
    ((List.range n).map synthId).count (synthId 0) = 1 := by
  obtain ⟨m, rfl⟩ : ∃ m, n = m + 1 := ⟨n - 1, by omega⟩
  rw [List.range_succ_eq_map]
  simp only [List.map_cons, List.map_map]
  rw [List.count_cons_self]
  have : ((List.range m).map (synthId ∘ Nat.succ)).count (synthId 0) = 0 := by
    rw [List.count_eq_zero]
    intro hmem
    simp only [List.mem_map, Function.comp] at hmem
    obtain ⟨i, _, hi⟩ := hmem
    exact synthId_succ_ne_zero i hi
  rw [this]

/-- The synthetic ids of a formatted assistant message are
`call_0 … call_(n-1)` in tool-call list order. -/
theorem formatOpenAI_assistant_ids (m : Message) (hm : m.role = Role.assistant) :
    oToolCallIds (formatOpenAIMessage m) = (List.range m.toolCalls.length).map synthId := by
  simp only [formatOpenAIMessage, hm, oToolCallIds, List.map_map]
  have h1 : (OToolCall.id ∘ fun p : Nat × ToolCall => OToolCall.mk (synthId p.1) p.2.name p.2.parameters)
      = fun p : Nat × ToolCall => synthId p.1 := rfl
  rw [h1]
  have h2 : (fun p : Nat × ToolCall => synthId p.1)
      = synthId ∘ Prod.fst := rfl
  rw [h2, ← List.map_map, List.map_fst_zip]
  simp

/-- C5: the flat-protocol formatter translates messages 1:1 in order;
assistant tool calls get synthetic ids `call_<index>` in list order; a tool
message produced by the orchestration loop (no `toolCallId`) carries
`tool_call_id = "call_0"`, which occurs exactly once among the ids of the
preceding tool-calling assistant message. -/
theorem c5_flat_protocol :
    (∀ messages : List Message,
      formatMessagesForOpenAI messages = messages.map formatOpenAIMessage)
    ∧ (∀ m : Message, m.role = Role.assistant →
        oToolCallIds (formatOpenAIMessage m) = (List.range m.toolCalls.length).map synthId)
    ∧ (∀ a t : Message, a.role = Role.assistant → a.toolCalls ≠ [] →
        t.role = Role.tool → t.toolCallId = none →
        oToolCallIdRef (formatOpenAIMessage t) = some "call_0"
          ∧ (oToolCallIds (formatOpenAIMessage a)).count "call_0" = 1) := by
  refine ⟨fun _ => rfl, formatOpenAI_assistant_ids, ?_⟩
  intro a t ha hane ht htc
  constructor
  · simp [formatOpenAIMessage, ht, htc, oToolCallIdRef]
  · rw [formatOpenAI_assistant_ids a ha]
    have hlen : 1 ≤ a.toolCalls.length := by
      cases h : a.toolCalls
      · exact absurd h hane
      · simp [h]
    have : ("call_0" : String) = synthId 0 := rfl
    rw [this]
    exact synthIds_count_zero a.toolCalls.length hlen

/-- C8. Tool-level failures are contained: the catch in each tool set's
`executeTool` converts a thrown implementation error into an
`Error executing <name>: <message>` result string; a name in no tool set
becomes the `Error: Unknown tool "<name>"` string from the dispatch
(neither is a thrown exception — both functions are total and
string-valued); dispatching a turn maps every call independently in order
(one failing call cannot affect the others); and a turn with tool calls
always appends its Tool message and continues the loop regardless of the
individual result strings. -/
theorem c8_tool_failures_contained :
    (∀ (ts : ToolSet) (name params e : String),
        ts.names.contains name = true → ts.rawExec name params = Except.error e →
        ts.executeTool name params = "Error executing " ++ name ++ ": " ++ e)
    ∧ (∀ (adv basic sand : ToolSet) (c : ToolCall),
        adv.names.contains c.name = false → basic.names.contains c.name = false →
        sand.names.contains c.name = false →
        dispatchToolCall adv basic sand c = "Error: Unknown tool \"" ++ c.name ++ "\"")
    ∧ (∀ (adv basic sand : ToolSet) (c : ToolCall) (e : String),
        adv.names.contains c.name = true → adv.rawExec c.name c.parameters = Except.error e →
        dispatchToolCall adv basic sand c = "Error executing " ++ c.name ++ ": " ++ e)
    ∧ (∀ (adv basic sand : ToolSet) (calls : List ToolCall) (i : Nat) (h : i < calls.length),
        (calls.map (dispatchToolCall adv basic sand)).length = calls.length
        ∧ (calls.map (dispatchToolCall adv basic sand)).getD i ""
            = dispatchToolCall adv basic sand (calls.get ⟨i, h⟩))
    ∧ (∀ (resp : Nat → LLMResponse) (adv basic sand : ToolSet) (fuel iter : Nat)
        (buf : List String) (hist : List Message),
        (resp iter).toolCalls ≠ [] →
        loopDetect buf (turnSignature (resp iter).toolCalls) = false →
        runLoopAux resp (dispatchToolCall adv basic sand) (fuel + 1) iter buf hist
          = runLoopAux resp (dispatchToolCall adv basic sand) fuel (iter + 1)
              (pushSignature buf (turnSignature (resp iter).toolCalls))
              (hist ++ [⟨Role.assistant, (resp iter).content, (resp iter).toolCalls, none⟩,
                        ⟨Role.tool, combinedToolContent
                          ((resp iter).toolCalls.map (dispatchToolCall adv basic sand)),
                          [], none⟩])) := by
  refine ⟨?_, ?_, ?_, ?_, ?_⟩
  · intro ts name params e hc hr
    have hmem : name ∈ ts.names := by simpa using hc
    simp [ToolSet.executeTool, hmem, hr]
  · intro adv basic sand c h1 h2 h3
    have hm1 : c.name ∉ adv.names := by simpa using h1
    have hm2 : c.name ∉ basic.names := by simpa using h2
    have hm3 : c.name ∉ sand.names := by simpa using h3
    simp [dispatchToolCall, hm1, hm2, hm3]
  · intro adv basic sand c e h1 h2
    have hmem : c.name ∈ adv.names := by simpa using h1
    simp [dispatchToolCall, hmem, ToolSet.executeTool, h2]
  · intro adv basic sand calls i h
    refine ⟨by simp, ?_⟩
    rw [List.getD_eq_getElem _ _ (by simpa using h)]
    simp
  · intro resp adv basic sand fuel iter buf hist hne hdet
    exact runLoopAux_step resp (dispatchToolCall adv basic sand) fuel iter buf hist hne hdet

/-- A list is an `isPrefixOf`-prefix of itself followed by anything. -/
theorem isPrefixOf_append_self (l t : List Char) : l.isPrefixOf (l ++ t) = true := by
  induction l with
  | nil => simp [List.isPrefixOf]
  | cons a as ih => simp [List.isPrefixOf, ih]

/-- The splitter ignores how much fuel it gets beyond the input length. -/
theorem jsSplitAux_fuel (m : List Char) :
    ∀ f f' (s acc : List Char), s.length ≤ f → s.length ≤ f' →
      jsSplitAux m f s acc = jsSplitAux m f' s acc := by
  intro f
  induction f with
  | zero =>
      intro f' s acc hf _
      have hs : s = [] := List.eq_nil_of_length_eq_zero (Nat.le_zero.mp hf)
      subst hs
      cases f' <;> simp [jsSplitAux]
  | succ n ih =>
      intro f' s acc hf hf'
      cases s with
      | nil => cases f' <;> simp [jsSplitAux]
      | cons c rest =>
          obtain ⟨k, rfl⟩ : ∃ k, f' = k + 1 := ⟨f' - 1, by simp at hf'; omega⟩
          simp only [List.length_cons] at hf hf'
          simp only [jsSplitAux]
          by_cases hp : m.isPrefixOf (c :: rest) = true
          · simp only [hp, if_true]
            congr 1
            exact ih k (List.drop (m.length - 1) rest) []
              (by simp only [List.length_drop]; omega)
              (by simp only [List.length_drop]; omega)
          · simp only [hp, if_false]
            exact ih k rest (c :: acc) (by omega) (by omega)

/-- With no occurrence of the marker, the splitter returns the single
segment it scanned. -/
theorem jsSplitAux_no_occ (m : List Char) :
    ∀ (s : List Char) f (acc : List Char), s.length ≤ f → hasOcc m s = false →
      jsSplitAux m f s acc = [acc.reverse ++ s] := by
  intro s
  induction s with
  | nil =>
      intro f acc _ _
      cases f <;> simp [jsSplitAux]
  | cons c rest ih =>
      intro f acc hf hocc
      obtain ⟨k, rfl⟩ : ∃ k, f = k + 1 := ⟨f - 1, by simp at hf; omega⟩
      simp only [List.length_cons] at hf
      simp only [hasOcc, Bool.or_eq_false_iff] at hocc
      simp only [jsSplitAux, hocc.1, if_false]
      rw [ih k (c :: acc) (by omega) hocc.2]
      simp

/-- The scan lemma: when no match starts inside `r` and the marker `m` does
not occur in `t`, splitting `r ++ m ++ t` cuts exactly once, at the
boundary. -/
theorem jsSplitAux_scan (m : List Char) (hm : m ≠ []) (t : List Char)
    (hocc : hasOcc m t = false) :
    ∀ (r acc : List Char) (f : Nat), (r ++ (m ++ t)).length ≤ f →
      cleanBefore m r (m ++ t) = true →
      jsSplitAux m f (r ++ (m ++ t)) acc = [acc.reverse ++ r, t] := by
  intro r
  induction r with
  | nil =>
      intro acc f hf _
      obtain ⟨c, m', rfl⟩ : ∃ c m', m = c :: m' := by
        cases m with
        | nil => exact absurd rfl hm
        | cons c m' => exact ⟨c, m', rfl⟩
      simp only [List.nil_append, List.cons_append, List.length_cons, List.length_append] at hf ⊢
      obtain ⟨k, rfl⟩ : ∃ k, f = k + 1 := ⟨f - 1, by omega⟩
      have hp : (c :: m').isPrefixOf (c :: (m' ++ t)) = true := by
        rw [← List.cons_append]
        exact isPrefixOf_append_self _ _
      simp only [jsSplitAux, hp, if_true]
      have hdrop : List.drop ((c :: m').length - 1) (m' ++ t) = t := by
        simp only [List.length_cons, Nat.add_sub_cancel]
        exact List.drop_left _ _
      rw [hdrop, jsSplitAux_no_occ (c :: m') t k [] (by omega) hocc]
      simp
  | cons c r' ih =>
      intro acc f hf hcb
      simp only [cleanBefore, Bool.and_eq_true, Bool.not_eq_true'] at hcb
      simp only [List.cons_append, List.length_cons] at hf ⊢
      obtain ⟨k, rfl⟩ : ∃ k, f = k + 1 := ⟨f - 1, by omega⟩
      simp only [jsSplitAux, hcb.1, if_false]
      rw [ih (c :: acc) k (by omega) hcb.2]
      simp

/-- Splitting `r ++ m ++ t` with a clean prefix and marker-free tail yields
exactly the two segments `r` and `t`. -/
theorem jsSplit_two_parts (m : List Char) (hm : m ≠ []) (r t : List Char)
    (hcb : cleanBefore m r (m ++ t) = true) (hocc : hasOcc m t = false) :
    jsSplit m (r ++ (m ++ t)) = [r, t] := by
  unfold jsSplit
  rw [jsSplitAux_scan m hm t hocc r [] _ (Nat.le_refl _) hcb]
  simp

/-- The label strip removes exactly the `Tool 2 result: ` prefix the
orchestrator re-attaches to the second segment, whatever the tool output
`r2` is. -/
theorem stripToolLabel_strips (r2 : List Char) :
    stripToolLabel ("Tool 2 result: ".data ++ r2) = r2 := by
  have h0 : "Tool 2 result: ".data ++ r2
      = "Tool ".data ++ ('2' :: (" result: ".data ++ r2)) := rfl
  rw [h0]
  unfold stripToolLabel
  rw [isPrefixOf_append_self]
  simp only [if_true]
  have h1 : ("Tool ".data ++ ('2' :: (" result: ".data ++ r2))).drop 5
      = '2' :: (" result: ".data ++ r2) := by
    have h5 : (5 : Nat) = ("Tool ".data).length := rfl
    rw [h5, List.drop_left]
  rw [h1]
  have h2 : ('2' :: (" result: ".data ++ r2)).takeWhile (fun c => c.isDigit) = ['2'] := by
    rw [List.takeWhile_cons]
    simp only [show '2'.isDigit = true from rfl, if_true]
    have h3 : " result: ".data ++ r2 = ' ' :: ("result: ".data ++ r2) := rfl
    rw [h3, List.takeWhile_cons]
    simp [show ' '.isDigit = false from rfl]
  rw [h2]
  have h4 : (('2' :: (" result: ".data ++ r2)).drop ((['2'] : List Char).length))
      = " result: ".data ++ r2 := rfl
  rw [h4]
  rw [if_pos ⟨by simp, by rw [isPrefixOf_append_self]⟩]
  have h9 : (9 : Nat) = (" result: ".data).length := rfl
  rw [h9, List.drop_left]

/-- The two `tool_use` ids generated for one assistant turn are distinct:
they end in different indices. -/
theorem mkToolUseId_zero_ne_one (now : Nat) : mkToolUseId now 0 ≠ mkToolUseId now 1 := by
  intro h
  have hd := congrArg String.data h
  simp only [mkToolUseId, String.data_append, List.append_assoc] at hd
  have h1 := List.append_cancel_left hd
  have h2 := List.append_cancel_left h1
  have h3 := List.append_cancel_left h2
  exact absurd h3 (by decide)

/-- Decomposition of a two-part concatenated tool-result content: with two
pending ids, the formatter emits one `tool_result` message per id, matched
by position, the first segment taken verbatim and the second with its
`Tool 2 result: ` label stripped. -/
theorem formatToolMessage_two (id0 id1 : String) (r1 r2 : List Char)
    (h1 : r1 ≠ [])
    (h2 : cleanBefore toolMarker r1 (toolMarker ++ ("2 result: ".data ++ r2)) = true)
    (h3 : hasOcc toolMarker ("2 result: ".data ++ r2) = false)
    (h4 : stripToolLabel r1 = r1) :
    formatToolMessage [id0, id1] (String.mk (r1 ++ "\n\nTool 2 result: ".data ++ r2))
      = [⟨"user", AContent.blocks [ABlock.toolResult id0 (String.mk r1)]⟩,
         ⟨"user", AContent.blocks [ABlock.toolResult id1 (String.mk r2)]⟩] := by
  have hsplit : splitToolResults (String.mk (r1 ++ "\n\nTool 2 result: ".data ++ r2))
      = [r1, "2 result: ".data ++ r2] := by
    unfold splitToolResults
    have hdata : (String.mk (r1 ++ "\n\nTool 2 result: ".data ++ r2)).data
        = r1 ++ (toolMarker ++ ("2 result: ".data ++ r2)) := by
      show r1 ++ "\n\nTool 2 result: ".data ++ r2 = _
      rw [List.append_assoc]
      rfl
    rw [hdata, jsSplit_two_parts toolMarker (by decide) r1 ("2 result: ".data ++ r2) h2 h3]
    have hne2 : ("2 result: ".data ++ r2) ≠ [] := by
      show ('2' :: (" result: ".data ++ r2)) ≠ []
      exact List.cons_ne_nil '2' (" result: ".data ++ r2)
    simp [h1, hne2]
  unfold formatToolMessage
  rw [hsplit]
  show formatToolMessage.toolResultMessages 0 [r1, "2 result: ".data ++ r2] [id0, id1] = _
  have hstrip2 : stripToolLabel
      ('T' :: 'o' :: 'o' :: 'l' :: ' ' :: '2' :: ' ' :: 'r' :: 'e' :: 's' :: 'u' :: 'l'
        :: 't' :: ':' :: ' ' :: r2) = r2 := stripToolLabel_strips r2
  simp only [formatToolMessage.toolResultMessages]
  simp [h4, hstrip2]

/-- C4: formatting a canonical turn with two tool calls followed by the
two-part concatenated tool-result message (first part unlabeled, second
labeled `Tool 2 result: `) emits two `tool_use` blocks with distinct ids
in call order and decomposes the Tool message — by splitting on the
literal marker `"\n\nTool "` — into one `tool_result` block per id,
matched by position, labels stripped, provided the tool outputs are
delimiter-free (no marker occurrence) and the first result carries no
label of its own. -/
theorem c4_round_trip (now : Nat) (c1 c2 : ToolCall) (ac : String) (lastIds0 : List String)
    (r1 r2 : List Char)
    (h1 : r1 ≠ [])
    (h2 : cleanBefore toolMarker r1 (toolMarker ++ ("2 result: ".data ++ r2)) = true)
    (h3 : hasOcc toolMarker ("2 result: ".data ++ r2) = false)
    (h4 : stripToolLabel r1 = r1) :
    formatAnthropicAux now
      [⟨Role.assistant, ac, [c1, c2], none⟩,
       ⟨Role.tool, String.mk (r1 ++ "\n\nTool 2 result: ".data ++ r2), [], none⟩] lastIds0
    = [⟨"assistant", AContent.blocks ((if ac ≠ "" then [ABlock.text ac] else [])
          ++ [ABlock.toolUse (mkToolUseId now 0) c1.name c1.parameters,
              ABlock.toolUse (mkToolUseId now 1) c2.name c2.parameters])⟩,
       ⟨"user", AContent.blocks [ABlock.toolResult (mkToolUseId now 0) (String.mk r1)]⟩,
       ⟨"user", AContent.blocks [ABlock.toolResult (mkToolUseId now 1) (String.mk r2)]⟩]
    ∧ mkToolUseId now 0 ≠ mkToolUseId now 1 := by
  refine ⟨?_, mkToolUseId_zero_ne_one now⟩
  have hstep : formatAnthropicAux now
      [⟨Role.assistant, ac, [c1, c2], none⟩,
       ⟨Role.tool, String.mk (r1 ++ "\n\nTool 2 result: ".data ++ r2), [], none⟩] lastIds0
      = AMessage.mk "assistant" (AContent.blocks ((if ac ≠ "" then [ABlock.text ac] else [])
            ++ [ABlock.toolUse (mkToolUseId now 0) c1.name c1.parameters,
                ABlock.toolUse (mkToolUseId now 1) c2.name c2.parameters]))
          :: (formatToolMessage [mkToolUseId now 0, mkToolUseId now 1]
                (String.mk (r1 ++ "\n\nTool 2 result: ".data ++ r2)) ++ []) := rfl
  rw [hstep, formatToolMessage_two (mkToolUseId now 0) (mkToolUseId now 1) r1 r2 h1 h2 h3 h4]
  simp

/-- Witness for the amended C1 at a concrete constant script. -/
theorem c1_witness :
    (runLoop (fun _ => ⟨"", [⟨"a", "{}"⟩]⟩) (fun _ => "R") []).terminal = Terminal.abortedLoop
      ∧ (runLoop (fun _ => ⟨"", [⟨"a", "{}"⟩]⟩) (fun _ => "R") []).iterations = 3 := by
  have h := c1_amended (fun _ => ⟨"", [⟨"a", "{}"⟩]⟩) (fun _ => "R") []
    (by simp) (by simp) (by simp) rfl rfl
  rw [h]
  exact ⟨rfl, rfl⟩

/-- Witness for the amended C3 at a concrete single-response script. -/
theorem c3_witness :
    histOk (fun _ => "R") (runLoop (fun _ => ⟨"done", []⟩) (fun _ => "R") []).history = true := by
  have h := c3_amended (fun _ => ⟨"done", []⟩) (fun _ => "R") [] rfl
  exact h.1 (Or.inl (by decide))

/-- Witness for the amended C6 at a concrete 401 failure object. -/
theorem c6_witness :
    isRetryableErrorOpenAI ⟨some 401, none, none, none⟩ = false
      ∧ isRetryableErrorAnthropic ⟨some 401, none, none, none⟩ = false :=
  c6_amended.2.2.2.2.2.2.2 ⟨some 401, none, none, none⟩ 401 rfl (Or.inl rfl) rfl rfl

/-- Witness for the amended C9: a script alternating two distinct
signatures runs all 25 iterations into the max-iterations state. -/
theorem c9_witness :
    (runLoop (fun n => if n % 2 = 0 then ⟨"", [⟨"a", "{}"⟩]⟩ else ⟨"", [⟨"b", "{}"⟩]⟩)
        (fun _ => "R") []).terminal = Terminal.abortedMaxIterations
    ∧ (runLoop (fun n => if n % 2 = 0 then ⟨"", [⟨"a", "{}"⟩]⟩ else ⟨"", [⟨"b", "{}"⟩]⟩)
        (fun _ => "R") []).iterations = 25 := by
  have h := c9_amended
  refine h.2.2 _ (fun _ => "R") [] ?_ ?_
  · intro i
    by_cases hi : i % 2 = 0 <;> simp [hi]
  · intro i
    by_cases hi : i % 2 = 0
    · have h1 : ¬(i + 1) % 2 = 0 := by omega
      simp only [hi, if_true, h1, if_false]
      decide
    · have h1 : (i + 1) % 2 = 0 := by omega
      simp only [hi, if_false, h1, if_true]
      decide

/-- Witness for C5 at a concrete assistant/tool message pair. -/
theorem c5_witness :
    oToolCallIdRef (formatOpenAIMessage ⟨Role.tool, "contents", [], none⟩) = some "call_0"
      ∧ (oToolCallIds (formatOpenAIMessage
          ⟨Role.assistant, "", [⟨"read_file", "{}"⟩], none⟩)).count "call_0" = 1 :=
  c5_flat_protocol.2.2 ⟨Role.assistant, "", [⟨"read_file", "{}"⟩], none⟩
    ⟨Role.tool, "contents", [], none⟩ rfl (by simp) rfl rfl

/-- Witness for C7: a simulated call failing with status 401 raises at once
with no sleep. -/
theorem c7_witness :
    (retryWithBackoff Nat isRetryableErrorOpenAI (fun _ => "auth failed")
        (fun _ => Outcome.failure ⟨some 401, none, none, none⟩) (fun _ => 0) 3 1000).result
      = Except.error "auth failed"
    ∧ (retryWithBackoff Nat isRetryableErrorOpenAI (fun _ => "auth failed")
        (fun _ => Outcome.failure ⟨some 401, none, none, none⟩) (fun _ => 0) 3 1000).sleeps = []
    ∧ (retryWithBackoff Nat isRetryableErrorOpenAI (fun _ => "auth failed")
        (fun _ => Outcome.failure ⟨some 401, none, none, none⟩) (fun _ => 0) 3 1000).attemptsMade
      = 1 := by
  have h := c7_retry Nat isRetryableErrorOpenAI (fun _ => "auth failed")
    (fun _ => Outcome.failure ⟨some 401, none, none, none⟩) (fun _ => 0)
    (fun _ => ⟨le_refl 0, by norm_num⟩)
  exact h.2.2.2.1 ⟨some 401, none, none, none⟩ rfl rfl

/-- Witness for C8: an unknown tool and a throwing tool both become result
strings at concrete tool sets. -/
theorem c8_witness :
    dispatchToolCall ⟨["edit_file_diff"], fun _ _ => Except.error "boom"⟩
        ⟨["read_file"], fun _ _ => Except.ok "listing"⟩ ⟨[], fun _ _ => Except.ok ""⟩
        ⟨"frobulate", "{}"⟩
      = "Error: Unknown tool \"frobulate\""
    ∧ dispatchToolCall ⟨["edit_file_diff"], fun _ _ => Except.error "boom"⟩
        ⟨["read_file"], fun _ _ => Except.ok "listing"⟩ ⟨[], fun _ _ => Except.ok ""⟩
        ⟨"edit_file_diff", "{}"⟩
      = "Error executing edit_file_diff: boom" := by
  have h := c8_tool_failures_contained
  exact ⟨h.2.1 _ _ _ ⟨"frobulate", "{}"⟩ rfl rfl rfl,
    h.2.2.1 _ _ _ ⟨"edit_file_diff", "{}"⟩ "boom" rfl rfl⟩

/-- Witness for C4 at concrete calls and results. -/
theorem c4_witness :
    formatAnthropicAux 42
      [⟨Role.assistant, "", [⟨"read_file", "{}"⟩, ⟨"write_file", "{}"⟩], none⟩,
       ⟨Role.tool, String.mk ("A".data ++ "\n\nTool 2 result: ".data ++ "B".data), [], none⟩] []
    = [⟨"assistant", AContent.blocks
          [ABlock.toolUse (mkToolUseId 42 0) "read_file" "{}",
           ABlock.toolUse (mkToolUseId 42 1) "write_file" "{}"]⟩,
       ⟨"user", AContent.blocks [ABlock.toolResult (mkToolUseId 42 0) "A"]⟩,
       ⟨"user", AContent.blocks [ABlock.toolResult (mkToolUseId 42 1) "B"]⟩]
    ∧ mkToolUseId 42 0 ≠ mkToolUseId 42 1 := by
  have h := c4_round_trip 42 ⟨"read_file", "{}"⟩ ⟨"write_file", "{}"⟩ "" []
    "A".data "B".data (by decide) (by decide) (by decide) (by decide)
  exact ⟨h.1.trans (by decide), h.2⟩

end PromptCoder
